import Mathlib

/-!
Verification of `unpack_repo.py` (euske/github-tools).

Shallow embedding of the repository-archive flattening tool `unpack_repo.py`:
the key-derivation function `getkey`, the per-archive unpacker `unpack_repo`,
the repository-index loader and the batch loop of `main`.  Machine integers are
modelled as `Nat` with explicit `% 2^w`; bytes are `List Nat`; the filesystem is
an association list from destination path to byte content (most recent write
first); the provenance database is a list of rows in insertion order; log output
is a list of tagged messages; an uncaught Python exception is an explicit
`Option PyExc` result component.
-/

set_option autoImplicit false

namespace UnpackRepo

/-! ## Python string helpers -/

/-- Whitespace characters stripped by Python's `str.strip()` (ASCII subset). -/
def wsp (c : Char) : Bool :=
  c == ' ' || c == '\t' || c == '\n' || c == '\r' || c == '\x0b' || c == '\x0c'

/-- Python `str.strip()`: drop leading and trailing whitespace. -/
def pyStrip (l : List Char) : List Char :=
  ((l.dropWhile wsp).reverse.dropWhile wsp).reverse

/-- Python `str.split(sep)` with a one-character separator: every occurrence of
the separator delimits a field, so consecutive separators yield empty fields. -/
def splitChar (sep : Char) : List Char → List (List Char)
  | [] => [[]]
  | c :: t =>
    if c = sep then [] :: splitChar sep t
    else
      match splitChar sep t with
      | h :: r => (c :: h) :: r
      | [] => [[c]]

/-- `needle` occurs as a contiguous substring of `hay` (Python `in` on str). -/
def containsSub (hay needle : List Char) : Bool :=
  match hay with
  | [] => needle.isEmpty
  | _ :: t => needle.isPrefixOf hay || containsSub t needle

/-- `os.path.basename`: everything after the last `/`. -/
def pyBasename (l : List Char) : List Char :=
  (l.reverse.takeWhile (· != '/')).reverse

/-- Helper for `os.path.splitext` on a separator-free name: find the rightmost
`.` that has at least one non-dot character before it.  `seen` records whether a
non-dot character occurs strictly before the current position. -/
def splitextAux : Bool → List Char → Option (List Char × List Char)
  | _, [] => none
  | seen, c :: t =>
    match splitextAux (seen || c != '.') t with
    | some (a, ext) => some (c :: a, ext)
    | none => if c = '.' && seen then some ([], c :: t) else none

/-- `os.path.splitext` (applied in the source only to a basename): split at the
last dot, except that leading dots of the name never start an extension. -/
def pySplitext (l : List Char) : List Char × List Char :=
  (splitextAux false l).getD (l, [])

/-- Python `str.partition('/')` restricted to the two components the source
uses: the part before the first `/` and the part after it (empty when there is
no `/`). -/
def pyPartition : List Char → List Char × List Char
  | [] => ([], [])
  | c :: t =>
    if c = '/' then ([], t)
    else
      let r := pyPartition t
      (c :: r.1, r.2)

/-- `os.path.join` for two components (POSIX): an absolute second component
wins; otherwise concatenate with exactly one `/` between nonempty parts. -/
def pyJoin (a b : String) : String :=
  if b.data.head? = some '/' then b
  else if a.data = [] then b
  else if a.data.getLast? = some '/' then ⟨a.data ++ b.data⟩
  else ⟨a.data ++ '/' :: b.data⟩

/-- Commit id derived from an archive path:
`os.path.splitext(os.path.basename(zippath))[0]` (line 33 of the source). -/
def commitOf (zippath : String) : String :=
  ⟨(pySplitext (pyBasename zippath.data)).1⟩

/-! ## MD5 (hashlib.md5(...).hexdigest()) -/

/-- The `n`-th lowercase hex digit (0–9 then a–f), as produced by Python's
`%x` formatting and `hexdigest()`; only ever applied to `n < 16`. -/
def hexDigit (n : Nat) : Char :=
  if n < 10 then Char.ofNat (48 + n)
  else if n < 16 then Char.ofNat (87 + n)
  else '0'

/-- Hex digits of `n`, most significant first (`%x`), with recursion fuel. -/
def hexChars : Nat → Nat → List Char
  | 0, _ => []
  | fuel + 1, n =>
    if n < 16 then [hexDigit n]
    else hexChars fuel (n / 16) ++ [hexDigit (n % 16)]

/-- Python `'%04x' % n`: lowercase hex of `n`, zero-padded to at least 4. -/
def hex04 (n : Nat) : List Char :=
  let h := hexChars (n + 1) n
  List.replicate (4 - h.length) '0' ++ h

/-- UTF-8 encoding of one Unicode scalar value (Python `str.encode('utf-8')`). -/
def utf8Bytes (c : Char) : List Nat :=
  let n := c.toNat
  if n < 128 then [n]
  else if n < 2048 then [192 + n / 64, 128 + n % 64]
  else if n < 65536 then [224 + n / 4096, 128 + n / 64 % 64, 128 + n % 64]
  else [240 + n / 262144, 128 + n / 4096 % 64, 128 + n / 64 % 64, 128 + n % 64]

/-- UTF-8 bytes of a string. -/
def strUtf8 (s : String) : List Nat := s.data.flatMap utf8Bytes

/-- Rotate a 32-bit word (a `Nat` below `2^32`) left by `s` bits. -/
def rotl32 (x s : Nat) : Nat :=
  ((x <<< s) % 4294967296) ||| (x >>> (32 - s))

/-- The 64 MD5 sine-derived round constants. -/
def md5K : List Nat :=
  [0xd76aa478, 0xe8c7b756, 0x242070db, 0xc1bdceee,
   0xf57c0faf, 0x4787c62a, 0xa8304613, 0xfd469501,
   0x698098d8, 0x8b44f7af, 0xffff5bb1, 0x895cd7be,
   0x6b901122, 0xfd987193, 0xa679438e, 0x49b40821,
   0xf61e2562, 0xc040b340, 0x265e5a51, 0xe9b6c7aa,
   0xd62f105d, 0x02441453, 0xd8a1e681, 0xe7d3fbc8,
   0x21e1cde6, 0xc33707d6, 0xf4d50d87, 0x455a14ed,
   0xa9e3e905, 0xfcefa3f8, 0x676f02d9, 0x8d2a4c8a,
   0xfffa3942, 0x8771f681, 0x6d9d6122, 0xfde5380c,
   0xa4beea44, 0x4bdecfa9, 0xf6bb4b60, 0xbebfbc70,
   0x289b7ec6, 0xeaa127fa, 0xd4ef3085, 0x04881d05,
   0xd9d4d039, 0xe6db99e5, 0x1fa27cf8, 0xc4ac5665,
   0xf4292244, 0x432aff97, 0xab9423a7, 0xfc93a039,
   0x655b59c3, 0x8f0ccc92, 0xffeff47d, 0x85845dd1,
   0x6fa87e4f, 0xfe2ce6e0, 0xa3014314, 0x4e0811a1,
   0xf7537e82, 0xbd3af235, 0x2ad7d2bb, 0xeb86d391]

/-- The 64 MD5 per-round left-rotation amounts. -/
def md5S : List Nat :=
  [7, 12, 17, 22, 7, 12, 17, 22, 7, 12, 17, 22, 7, 12, 17, 22,
   5, 9, 14, 20, 5, 9, 14, 20, 5, 9, 14, 20, 5, 9, 14, 20,
   4, 11, 16, 23, 4, 11, 16, 23, 4, 11, 16, 23, 4, 11, 16, 23,
   6, 10, 15, 21, 6, 10, 15, 21, 6, 10, 15, 21, 6, 10, 15, 21]

/-- The MD5 nonlinear function of round `i` (bitwise NOT of a 32-bit word `w`
is `4294967295 - w`). -/
def md5F (i b c d : Nat) : Nat :=
  if i < 16 then (b &&& c) ||| ((4294967295 - b) &&& d)
  else if i < 32 then (d &&& b) ||| ((4294967295 - d) &&& c)
  else if i < 48 then b ^^^ c ^^^ d
  else c ^^^ (b ||| (4294967295 - d))

/-- The MD5 message-word index for round `i`. -/
def md5G (i : Nat) : Nat :=
  if i < 16 then i
  else if i < 32 then (5 * i + 1) % 16
  else if i < 48 then (3 * i + 5) % 16
  else 7 * i % 16

/-- One MD5 round applied to the state `(a, b, c, d)`. -/
def md5Step (M : List Nat) (st : Nat × Nat × Nat × Nat) (i : Nat) :
    Nat × Nat × Nat × Nat :=
  let a := st.1
  let b := st.2.1
  let c := st.2.2.1
  let d := st.2.2.2
  let f := (md5F i b c d + a + md5K.getD i 0 + M.getD (md5G i) 0) % 4294967296
  (d, (b + rotl32 f (md5S.getD i 0)) % 4294967296, b, c)

/-- Process one 16-word block. -/
def md5Block (h : Nat × Nat × Nat × Nat) (M : List Nat) : Nat × Nat × Nat × Nat :=
  let r := (List.range 64).foldl (md5Step M) h
  ((h.1 + r.1) % 4294967296, (h.2.1 + r.2.1) % 4294967296,
   (h.2.2.1 + r.2.2.1) % 4294967296, (h.2.2.2 + r.2.2.2) % 4294967296)

/-- Little-endian 32-bit words from a byte list. -/
def leWords : List Nat → List Nat
  | b0 :: b1 :: b2 :: b3 :: rest =>
    (b0 + b1 * 256 + b2 * 65536 + b3 * 16777216) :: leWords rest
  | _ => []

/-- `k` little-endian bytes of `n`. -/
def leBytes : Nat → Nat → List Nat
  | 0, _ => []
  | k + 1, n => n % 256 :: leBytes k (n / 256)

/-- MD5 padding: `0x80`, zeros to 56 mod 64, then the bit length mod `2^64`
as 8 little-endian bytes. -/
def md5Pad (m : List Nat) : List Nat :=
  m ++ 128 :: (List.replicate ((119 - m.length % 64) % 64) 0
    ++ leBytes 8 (8 * m.length % 18446744073709551616))

/-- Split a padded message into 16-word blocks (with recursion fuel). -/
def md5Chunks : Nat → List Nat → List (List Nat)
  | 0, _ => []
  | _ + 1, [] => []
  | fuel + 1, l => leWords (l.take 64) :: md5Chunks fuel (l.drop 64)

/-- MD5 digest of a byte list, as 16 bytes. -/
def md5 (m : List Nat) : List Nat :=
  let p := md5Pad m
  let r := (md5Chunks p.length p).foldl md5Block
    (0x67452301, 0xefcdab89, 0x98badcfe, 0x10325476)
  leBytes 4 r.1 ++ leBytes 4 r.2.1 ++ leBytes 4 r.2.2.1 ++ leBytes 4 r.2.2.2

/-- `hashlib.md5(m).hexdigest()`: two lowercase hex digits per digest byte. -/
def md5hex (m : List Nat) : List Char :=
  (md5 m).flatMap fun b => [hexDigit (b / 16 % 16), hexDigit (b % 16)]

/-! ## `getkey` (lines 17–22 of the source) -/

/-- Complement of the source's `INVALID = re.compile(r'[^.a-zA-Z0-9]')`:
characters kept unchanged by the substitution. -/
def validChar (c : Char) : Bool :=
  c == '.' || (decide ('a' ≤ c) && decide (c ≤ 'z')) ||
    (decide ('A' ≤ c) && decide (c ≤ 'Z')) || (decide ('0' ≤ c) && decide (c ≤ '9'))

/-- `INVALID.sub(lambda m: '_%04x' % ord(m.group(0)), ...)` on one character. -/
def sanitizeChar (c : Char) : List Char :=
  if validChar c then [c] else '_' :: hex04 c.toNat

/-- `getkey(path)`: the MD5 hex digest of the UTF-8 encoded path, `_`, then the
basename with every character outside `[.a-zA-Z0-9]` replaced by `_%04x` of its
code point. -/
def getkey (path : String) : String :=
  ⟨md5hex (strUtf8 path) ++ '_' :: (pyBasename path.data).flatMap sanitizeChar⟩

/-- The character set the spec asserts for `deriveKey` output:
ASCII letters, digits, `.` and `_`. -/
def isKeyChar (c : Char) : Bool :=
  (decide ('A' ≤ c) && decide (c ≤ 'Z')) || (decide ('a' ≤ c) && decide (c ≤ 'z')) ||
    (decide ('0' ≤ c) && decide (c ≤ '9')) || c == '.' || c == '_'

/-! ## Data model for archives, state and results -/

/-- One archive entry, as exposed by `zipfile` (`info.filename`,
`info.is_dir()`, `info.file_size`) together with its byte content. -/
structure Entry where
  filename : String
  is_dir : Bool
  file_size : Nat
  content : List Nat
deriving DecidableEq, Repr

/-- A zip input: either one that `zipfile.ZipFile` rejects (`BadZipFile`) or a
parsed archive with its entry list in archive order. -/
inductive ZipFile where
  | bad
  | good (entries : List Entry)
deriving DecidableEq, Repr

/-- A compiled pattern, modelled by its `pat.search(src)` truth value. -/
def Pat : Type := String → Bool

/-- A row of the `SourceMap` table, in the column order of the INSERT at
lines 63–65 (the auto-increment `Uid` is the position in the list). -/
structure Row where
  filename : String
  reponame : String
  branch : String
  commit : String
  srcpath : String
deriving DecidableEq, Repr

/-- A log record with its level. -/
inductive LogMsg where
  | error (msg : String)
  | info (msg : String)
  | debug (msg : String)
deriving DecidableEq, Repr

/-- Observable state threaded through a run: the destination tree (most recent
write first), the `SourceMap` rows in insertion order, and the log. -/
structure St where
  fs : List (String × List Nat)
  rows : List Row
  logs : List LogMsg
deriving DecidableEq, Repr

/-- Uncaught Python exceptions that the modelled code can raise. -/
inductive PyExc where
  | keyError (key : String)
  | valueError
  | assertionError
deriving DecidableEq, Repr

/-- The summary record the spec says `unpack` returns
(`UnpackSummary{attempted, extracted, skipped}`).  The source's `unpack_repo`
has only bare `return` statements, so its modelled return value
(`UnpackResult.retval`) is always `none`. -/
structure UnpackSummary where
  attempted : Nat
  extracted : Nat
  skipped : Nat
deriving DecidableEq, Repr

/-- Result of one `unpack_repo` call: final state, the final value of the local
`extracted` counter (0 on early return), the Python return value, and the
uncaught exception if one propagates. -/
structure UnpackResult where
  st : St
  extracted : Nat
  retval : Option UnpackSummary
  exc : Option PyExc
deriving Repr

/-- Commit-id to `(repositoryFullName, branchName)` map built by `main` from
the `-R` file; association list, first match wins (later inserts shadow). -/
abbrev RepoMap := List (String × String × String)

/-! ## The entry filter (lines 43–48) -/

/-- The `for (pat,ok) in pats: ... else: ok = False` loop: the first pattern
whose `search` matches decides via its flag; an exhausted list (including the
empty list) yields `False`. -/
def patDecision : List (Pat × Bool) → String → Bool
  | [], _ => false
  | (p, flag) :: rest, src => if p src then flag else patDecision rest src

/-! ## The per-archive entry loop (lines 37–79) -/

/-- Parameters of one `unpack_repo` call that are fixed across the entry
loop.  `prov` is `some (reponame, branch)` exactly when both `srcmap` and
`repo` were passed (the assert at line 26 makes the two equivalent). -/
structure Ctx where
  zippath : String
  dstbase : String
  pats : List (Pat × Bool)
  extract : Bool
  maxfiles : Nat
  maxsize : Nat
  prov : Option (String × String)
  commit : String

/-- Loop accumulator: the `dstdir` tracker, the `extracted` counter, the
observable state, and whether `break` has executed. -/
structure LoopAcc where
  dstdir : Option String
  extracted : Nat
  st : St
  broke : Bool

/-- The `for info in zfp.infolist()` body for one entry.  Skips directories,
paths containing `/.`, pattern-rejected paths and oversized entries (logging
the last at info level); otherwise splits the path at the first `/`, derives
the flat name, logs at debug level, inserts a `SourceMap` row when provenance
is active, and, when extraction is enabled, writes the file, bumps `extracted`
and records the `break` once `maxfiles <= extracted`. -/
def entryStep (ctx : Ctx) (e : Entry) (acc : LoopAcc) : LoopAcc :=
  if e.is_dir then acc
  else if containsSub e.filename.data ['/', '.'] then acc
  else if !patDecision ctx.pats e.filename then acc
  else if ctx.maxsize < e.file_size then
    { acc with st := { acc.st with
      logs := acc.st.logs ++
        [LogMsg.info ("skipped: " ++ e.filename ++ " (" ++ toString e.file_size ++ ")")] } }
  else
    let pr := pyPartition e.filename.data
    let dir1 : String := ⟨pr.1⟩
    let src1 : String := ⟨pr.2⟩
    let dst := pyJoin dir1 (getkey src1)
    let st1 := { acc.st with
      logs := acc.st.logs ++ [LogMsg.debug ("extract: " ++ src1 ++ " -> " ++ dst)] }
    let st2 := match ctx.prov with
      | some (rn, br) => { st1 with rows := st1.rows ++ [⟨dst, rn, br, ctx.commit, src1⟩] }
      | none => st1
    if ctx.extract then
      { dstdir := some dir1, extracted := acc.extracted + 1,
        st := { st2 with fs := (pyJoin ctx.dstbase dst, e.content) :: st2.fs },
        broke := decide (ctx.maxfiles ≤ acc.extracted + 1) }
    else
      { dstdir := some dir1, extracted := acc.extracted, st := st2, broke := false }

/-- The `for info in zfp.infolist()` loop: entries in archive order, stopping
once a step has recorded the `break`. -/
def unpackLoop (ctx : Ctx) : List Entry → LoopAcc → LoopAcc
  | [], acc => acc
  | e :: rest, acc =>
    if acc.broke then acc
    else unpackLoop ctx rest (entryStep ctx e acc)

/-! ## `unpack_repo` (lines 24–81) -/

/-- The normal exit of `unpack_repo` (lines 80–81): log the final info line
with the extracted count and return `None`. -/
def finishUnpack (zippath : String) (a : LoopAcc) : UnpackResult :=
  ⟨{ a.st with logs := a.st.logs ++
      [LogMsg.info ("extracted: " ++ zippath ++ ": " ++ toString a.extracted ++ " files.")] },
    a.extracted, none, none⟩

/-- One `unpack_repo(zippath, dstbase, pats, extract, maxfiles, maxsize,
srcmap, repo)` call on state `st`.  The assert at line 26 raises
`AssertionError` when only one of `srcmap`/`repo` is given; a bad zip logs an
error and returns; a commit id missing from `repo` raises an uncaught
`KeyError` (line 35); otherwise the entry loop runs and a final info line with
the extracted count is logged.  Both `return` statements return `None`
(`retval = none`). -/
def unpack_repo (zippath : String) (zfile : ZipFile) (dstbase : String)
    (pats : List (Pat × Bool)) (extract : Bool) (maxfiles maxsize : Nat)
    (srcmap : Bool) (repo : Option RepoMap) (st : St) : UnpackResult :=
  if srcmap = repo.isSome then
    match zfile with
    | ZipFile.bad =>
      ⟨{ st with logs := st.logs ++ [LogMsg.error ("error: " ++ zippath ++ ": BadZipFile")] },
        0, none, none⟩
    | ZipFile.good entries =>
      match repo with
      | none =>
        finishUnpack zippath
          (unpackLoop ⟨zippath, dstbase, pats, extract, maxfiles, maxsize, none, commitOf zippath⟩
            entries ⟨none, 0, st, false⟩)
      | some rmap =>
        match rmap.lookup (commitOf zippath) with
        | none => ⟨st, 0, none, some (PyExc.keyError (commitOf zippath))⟩
        | some rb =>
          finishUnpack zippath
            (unpackLoop
              ⟨zippath, dstbase, pats, extract, maxfiles, maxsize, some rb, commitOf zippath⟩
              entries ⟨none, 0, st, false⟩)
  else ⟨st, 0, none, some PyExc.assertionError⟩

/-! ## The repository-index loader and batch loop of `main` (lines 128–144) -/

/-- Lines 131–135: each line is stripped, split on single spaces, and
tuple-unpacked into exactly four fields `user reponame branch commit`
(anything else raises `ValueError`); the map gets
`commit  ↦ (user ++ "/" ++ reponame, branch)`, later lines shadowing earlier
ones. -/
def parseRepoIndexAux : RepoMap → List String → Except PyExc RepoMap
  | m, [] => Except.ok m
  | m, line :: rest =>
    match (splitChar ' ' (pyStrip line.data)).map (fun l => (⟨l⟩ : String)) with
    | [u, rn, br, c] => parseRepoIndexAux ((c, (u ++ "/" ++ rn, br)) :: m) rest
    | _ => Except.error PyExc.valueError

/-- The repository-index loader of `main`. -/
def parseRepoIndex (ls : List String) : Except PyExc RepoMap :=
  parseRepoIndexAux [] ls

/-- The `for zippath in args` loop of `main` (lines 137–141): archives are
processed in order with no try/except, so the first uncaught exception from
`unpack_repo` aborts the loop. -/
def runBatchLoop (dstbase : String) (pats : List (Pat × Bool)) (extract : Bool)
    (maxfiles maxsize : Nat) (srcmap : Bool) (repo : Option RepoMap) :
    List (String × ZipFile) → St → St × Option PyExc
  | [], st => (st, none)
  | (zp, zf) :: rest, st =>
    let r := unpack_repo zp zf dstbase pats extract maxfiles maxsize srcmap repo st
    match r.exc with
    | some e => (r.st, some e)
    | none => runBatchLoop dstbase pats extract maxfiles maxsize srcmap repo rest r.st

/-- Result of the batch: final state, propagated exception if any, and the
rows that are durably committed.  `srcmap.commit()` (lines 143–144) runs only
when the archive loop finishes without an uncaught exception; rows inserted on
a connection that is never committed are rolled back, so nothing is durable
when an exception aborts `main`. -/
structure BatchResult where
  st : St
  exc : Option PyExc
  committedRows : List Row
deriving Repr

/-- The batch part of `main`: run every archive in input order, then commit the
provenance store. -/
def runBatch (zips : List (String × ZipFile)) (dstbase : String)
    (pats : List (Pat × Bool)) (extract : Bool) (maxfiles maxsize : Nat)
    (srcmap : Bool) (repo : Option RepoMap) (st : St) : BatchResult :=
  let r := runBatchLoop dstbase pats extract maxfiles maxsize srcmap repo zips st
  ⟨r.1, r.2, if r.2.isNone && srcmap then r.1.rows else []⟩

/-! ## Control-flow and filesystem projections of the entry loop

The loop's control decisions (which entries are skipped, when `break` fires)
and the sequence of file writes depend only on the loop's control data
(`dstdir`, `extracted`, `broke`) and the archive — never on the observable
state being threaded through.  The projections below duplicate the branch
structure of `entryStep` on control data alone; the lemmas following them
prove the correspondence. -/

/-- The control part of a `LoopAcc`. -/
structure Ctl where
  dstdir : Option String
  extracted : Nat
  broke : Bool
deriving DecidableEq, Repr

/-- Control projection of a loop accumulator. -/
def LoopAcc.ctl (acc : LoopAcc) : Ctl := ⟨acc.dstdir, acc.extracted, acc.broke⟩

/-- Control effect of one entry step. -/
def stepCtl (ctx : Ctx) (e : Entry) (k : Ctl) : Ctl :=
  if e.is_dir then k
  else if containsSub e.filename.data ['/', '.'] then k
  else if !patDecision ctx.pats e.filename then k
  else if ctx.maxsize < e.file_size then k
  else
    let dir1 : String := ⟨(pyPartition e.filename.data).1⟩
    if ctx.extract then
      ⟨some dir1, k.extracted + 1, decide (ctx.maxfiles ≤ k.extracted + 1)⟩
    else ⟨some dir1, k.extracted, false⟩

/-- Files written by one entry step (most recent first). -/
def stepFS (ctx : Ctx) (e : Entry) : List (String × List Nat) :=
  if e.is_dir then []
  else if containsSub e.filename.data ['/', '.'] then []
  else if !patDecision ctx.pats e.filename then []
  else if ctx.maxsize < e.file_size then []
  else if ctx.extract then
    [(pyJoin ctx.dstbase
        (pyJoin (⟨(pyPartition e.filename.data).1⟩ : String)
          (getkey ⟨(pyPartition e.filename.data).2⟩)), e.content)]
  else []

/-- Control effect of the whole loop. -/
def loopCtl (ctx : Ctx) : List Entry → Ctl → Ctl
  | [], k => k
  | e :: rest, k => if k.broke then k else loopCtl ctx rest (stepCtl ctx e k)

/-- Files written by the whole loop (most recent first). -/
def loopFS (ctx : Ctx) : List Entry → Ctl → List (String × List Nat)
  | [], _ => []
  | e :: rest, k =>
    if k.broke then []
    else loopFS ctx rest (stepCtl ctx e k) ++ stepFS ctx e

/-- Files written by one `unpack_repo` call (most recent first); a function of
the arguments only, not of the incoming state. -/
def unpackFS (zippath : String) (zfile : ZipFile) (dstbase : String)
    (pats : List (Pat × Bool)) (extract : Bool) (maxfiles maxsize : Nat)
    (srcmap : Bool) (repo : Option RepoMap) : List (String × List Nat) :=
  if srcmap = repo.isSome then
    match zfile with
    | ZipFile.bad => []
    | ZipFile.good entries =>
      match repo with
      | none =>
        loopFS ⟨zippath, dstbase, pats, extract, maxfiles, maxsize, none, commitOf zippath⟩
          entries ⟨none, 0, false⟩
      | some rmap =>
        match rmap.lookup (commitOf zippath) with
        | none => []
        | some rb =>
          loopFS ⟨zippath, dstbase, pats, extract, maxfiles, maxsize, some rb, commitOf zippath⟩
            entries ⟨none, 0, false⟩
  else []

/-! ## Character-set lemmas for `getkey` -/

theorem hexDigit_key (n : Nat) : isKeyChar (hexDigit n) = true := by
  by_cases h : n < 16
  · exact (by decide : ∀ k, k < 16 → isKeyChar (hexDigit k) = true) n h
  · have h10 : ¬n < 10 := by omega
    rw [hexDigit, if_neg h10, if_neg h]
    decide

theorem hexChars_key : ∀ fuel n, (hexChars fuel n).all isKeyChar = true := by
  intro fuel
  induction fuel with
  | zero => intro n; rfl
  | succ f ih =>
    intro n
    by_cases h : n < 16
    · simp [hexChars, h, hexDigit_key]
    · simp [hexChars, h, List.all_append, ih, hexDigit_key]

theorem hex04_key (n : Nat) : (hex04 n).all isKeyChar = true := by
  simp only [hex04, List.all_append, Bool.and_eq_true]
  refine ⟨?_, hexChars_key _ n⟩
  simp only [List.all_eq_true]
  intro c hc
  rw [List.eq_of_mem_replicate hc]
  decide

theorem validChar_key (c : Char) (h : validChar c = true) : isKeyChar c = true := by
  simp only [validChar, Bool.or_eq_true, Bool.and_eq_true, decide_eq_true_eq, beq_iff_eq] at h
  simp only [isKeyChar, Bool.or_eq_true, Bool.and_eq_true, decide_eq_true_eq, beq_iff_eq]
  tauto

theorem sanitizeChar_key (c : Char) : (sanitizeChar c).all isKeyChar = true := by
  by_cases h : validChar c = true
  · simp [sanitizeChar, h, validChar_key c h]
  · rw [sanitizeChar, if_neg h]
    simp only [List.all_cons, Bool.and_eq_true]
    exact ⟨by decide, hex04_key _⟩

theorem md5hex_key (m : List Nat) : (md5hex m).all isKeyChar = true := by
  simp only [md5hex, List.all_eq_true]
  intro c hc
  rcases List.mem_flatMap.mp hc with ⟨b, _, hb⟩
  simp only [List.mem_cons, List.mem_singleton] at hb
  rcases hb with h | h | h
  · rw [h]; exact hexDigit_key _
  · rw [h]; exact hexDigit_key _
  · cases h

/-- C7: for every input string — including the empty string and strings with
spaces, slashes or non-ASCII characters — `getkey` is a total function (it is
defined for all `String` inputs, mirroring that the Python code raises no
exception) and every character of its output lies in `{A-Z, a-z, 0-9, ., _}`. -/
theorem c7_getkey_charset (p : String) : (getkey p).data.all isKeyChar = true := by
  show (md5hex (strUtf8 p) ++ '_' :: (pyBasename p.data).flatMap sanitizeChar).all isKeyChar = true
  simp only [List.all_append, List.all_cons, Bool.and_eq_true]
  refine ⟨md5hex_key _, by decide, ?_⟩
  simp only [List.all_eq_true]
  intro c hc
  rcases List.mem_flatMap.mp hc with ⟨b, _, hb⟩
  have hall := sanitizeChar_key b
  rw [List.all_eq_true] at hall
  exact hall c hb

/-! ## Loop correspondence lemmas -/

theorem entryStep_ctl (ctx : Ctx) (e : Entry) (acc : LoopAcc) :
    (entryStep ctx e acc).ctl = stepCtl ctx e acc.ctl := by
  unfold entryStep stepCtl
  split_ifs <;> rfl

theorem entryStep_fs (ctx : Ctx) (e : Entry) (acc : LoopAcc) :
    (entryStep ctx e acc).st.fs = stepFS ctx e ++ acc.st.fs := by
  unfold entryStep stepFS
  split_ifs <;> first | rfl | (cases ctx.prov <;> rfl)

theorem unpackLoop_broke (ctx : Ctx) (es : List Entry) (acc : LoopAcc)
    (h : acc.broke = true) : unpackLoop ctx es acc = acc := by
  cases es with
  | nil => rfl
  | cons e rest => simp [unpackLoop, h]

theorem unpackLoop_ctl (ctx : Ctx) (es : List Entry) (acc : LoopAcc) :
    (unpackLoop ctx es acc).ctl = loopCtl ctx es acc.ctl := by
  induction es generalizing acc with
  | nil => rfl
  | cons e rest ih =>
    by_cases hb : acc.broke = true
    · rw [unpackLoop_broke ctx _ _ hb]
      have : acc.ctl.broke = true := hb
      simp [loopCtl, this]
    · have hb' : acc.broke = false := by simpa using hb
      have hc : acc.ctl.broke = false := hb'
      simp only [unpackLoop, loopCtl, hb', hc, Bool.false_eq_true, if_false]
      rw [ih, entryStep_ctl]

theorem unpackLoop_fs (ctx : Ctx) (es : List Entry) (acc : LoopAcc) :
    (unpackLoop ctx es acc).st.fs = loopFS ctx es acc.ctl ++ acc.st.fs := by
  induction es generalizing acc with
  | nil => rfl
  | cons e rest ih =>
    by_cases hb : acc.broke = true
    · rw [unpackLoop_broke ctx _ _ hb]
      have : acc.ctl.broke = true := hb
      simp [loopFS, this]
    · have hb' : acc.broke = false := by simpa using hb
      have hc : acc.ctl.broke = false := hb'
      simp only [unpackLoop, loopFS, hb', hc, Bool.false_eq_true, if_false]
      rw [ih, entryStep_fs, entryStep_ctl, List.append_assoc]

theorem unpackLoop_append (ctx : Ctx) (l₁ l₂ : List Entry) (acc : LoopAcc) :
    unpackLoop ctx (l₁ ++ l₂) acc = unpackLoop ctx l₂ (unpackLoop ctx l₁ acc) := by
  induction l₁ generalizing acc with
  | nil => rfl
  | cons e rest ih =>
    by_cases hb : acc.broke = true
    · rw [unpackLoop_broke ctx ((e :: rest) ++ l₂) acc hb,
        unpackLoop_broke ctx (e :: rest) acc hb, unpackLoop_broke ctx l₂ acc hb]
    · have hb' : acc.broke = false := by simpa using hb
      simp only [List.cons_append, unpackLoop, hb', Bool.false_eq_true, if_false]
      exact ih _

theorem unpack_repo_fs (zippath : String) (zfile : ZipFile) (dstbase : String)
    (pats : List (Pat × Bool)) (extract : Bool) (maxfiles maxsize : Nat)
    (srcmap : Bool) (repo : Option RepoMap) (st : St) :
    (unpack_repo zippath zfile dstbase pats extract maxfiles maxsize srcmap repo st).st.fs
      = unpackFS zippath zfile dstbase pats extract maxfiles maxsize srcmap repo ++ st.fs := by
  by_cases hs : srcmap = repo.isSome
  · cases zfile with
    | bad =>
      simp only [unpack_repo, unpackFS, if_pos hs]
      rfl
    | good entries =>
      cases repo with
      | none =>
        simp only [unpack_repo, unpackFS, if_pos hs]
        exact unpackLoop_fs _ entries ⟨none, 0, st, false⟩
      | some rmap =>
        cases hl : rmap.lookup (commitOf zippath) with
        | none =>
          simp only [unpack_repo, unpackFS, if_pos hs, hl]
          rfl
        | some rb =>
          simp only [unpack_repo, unpackFS, if_pos hs, hl]
          exact unpackLoop_fs _ entries ⟨none, 0, st, false⟩
  · simp only [unpack_repo, unpackFS, if_neg hs]
    rfl

theorem lookup_append {α β : Type} [BEq α] (l₁ l₂ : List (α × β)) (k : α) :
    (l₁ ++ l₂).lookup k =
      match l₁.lookup k with
      | some v => some v
      | none => l₂.lookup k := by
  induction l₁ with
  | nil => simp [List.lookup]
  | cons p t ih =>
    rcases p with ⟨k', v⟩
    by_cases h : k == k'
    · simp [List.lookup, h]
    · simp only [List.cons_append, List.lookup, h, if_false, Bool.false_eq_true]
      exact ih

/-- C6: unpacking the same archive twice into the same destination root with
extraction enabled produces byte-identical files at identical flat paths both
times.  The writes of a run are a function of the archive alone
(`unpack_repo_fs`), so the second run re-writes exactly the first run's
destination paths with the same contents and the resulting file map — lookup
of any destination path `k` — is unchanged; in particular no file appears
under a key not already written by the first run. -/
theorem c6_rerun_idempotent (zp : String) (zf : ZipFile) (dstbase : String)
    (pats : List (Pat × Bool)) (maxfiles maxsize : Nat) (srcmap : Bool)
    (repo : Option RepoMap) (st : St) (k : String) :
    ((unpack_repo zp zf dstbase pats true maxfiles maxsize srcmap repo
        (unpack_repo zp zf dstbase pats true maxfiles maxsize srcmap repo st).st).st.fs.lookup k)
      = ((unpack_repo zp zf dstbase pats true maxfiles maxsize srcmap repo st).st.fs.lookup k) := by
  rw [unpack_repo_fs, unpack_repo_fs]
  cases h : (unpackFS zp zf dstbase pats true maxfiles maxsize srcmap repo).lookup k with
  | none => simp [lookup_append, h]
  | some v => simp [lookup_append, h]

/-! ## Loop behaviour with an empty pattern list -/

theorem entryStep_no_pats (ctx : Ctx) (h : ctx.pats = []) (e : Entry) (acc : LoopAcc) :
    entryStep ctx e acc = acc := by
  unfold entryStep
  rw [h]
  simp [patDecision]

theorem unpackLoop_no_pats (ctx : Ctx) (h : ctx.pats = []) (es : List Entry) (acc : LoopAcc) :
    unpackLoop ctx es acc = acc := by
  induction es with
  | nil => rfl
  | cons e rest ih =>
    by_cases hb : acc.broke = true
    · exact unpackLoop_broke ctx _ _ hb
    · have hb' : acc.broke = false := by simpa using hb
      simp only [unpackLoop, hb', Bool.false_eq_true, if_false, entryStep_no_pats ctx h]
      exact ih

/-- C3 (counterexample): an entry that passes the hidden-segment check (its
path contains no `/.`) and the size check (5 ≤ 100) is nevertheless rejected
when no pattern is configured: the filter returns `false` on the empty pattern
list and the unpacker extracts nothing from an archive containing only that
entry. -/
theorem c3_no_pats_rejects_counterexample :
    patDecision [] "proj/Main.java" = false ∧
    (unpack_repo "abc.zip" (ZipFile.good [⟨"proj/Main.java", false, 5, [1, 2, 3]⟩])
        "." [] true 10 100 false none ⟨[], [], []⟩).st.fs = [] ∧
    (unpack_repo "abc.zip" (ZipFile.good [⟨"proj/Main.java", false, 5, [1, 2, 3]⟩])
        "." [] true 10 100 false none ⟨[], [], []⟩).extracted = 0 :=
  ⟨rfl, rfl, rfl⟩

/-- C3 (amended): when no inclusion or exclusion pattern is configured, the
entry filter rejects every entry — the `for ... else` over the empty pattern
list sets `ok = False` — so `unpack_repo` writes no file, inserts no
provenance row and extracts zero entries, whatever the archive contains. -/
theorem c3_amended_no_pats_rejects_all (zp : String) (zf : ZipFile) (dstbase : String)
    (extract : Bool) (maxfiles maxsize : Nat) (srcmap : Bool) (repo : Option RepoMap)
    (st : St) :
    (unpack_repo zp zf dstbase [] extract maxfiles maxsize srcmap repo st).st.fs = st.fs ∧
    (unpack_repo zp zf dstbase [] extract maxfiles maxsize srcmap repo st).st.rows = st.rows ∧
    (unpack_repo zp zf dstbase [] extract maxfiles maxsize srcmap repo st).extracted = 0 := by
  by_cases hs : srcmap = repo.isSome
  · cases zf with
    | bad =>
      simp only [unpack_repo, if_pos hs]
      exact ⟨trivial, trivial, trivial⟩
    | good entries =>
      cases repo with
      | none =>
        simp only [unpack_repo, if_pos hs,
          unpackLoop_no_pats ⟨zp, dstbase, [], extract, maxfiles, maxsize, none, commitOf zp⟩ rfl,
          finishUnpack]
        exact ⟨trivial, trivial, trivial⟩
      | some rmap =>
        cases hl : rmap.lookup (commitOf zp) with
        | none =>
          simp only [unpack_repo, if_pos hs, hl]
          exact ⟨trivial, trivial, trivial⟩
        | some rb =>
          simp only [unpack_repo, if_pos hs, hl,
            unpackLoop_no_pats ⟨zp, dstbase, [], extract, maxfiles, maxsize, some rb, commitOf zp⟩ rfl,
            finishUnpack]
          exact ⟨trivial, trivial, trivial⟩
  · simp only [unpack_repo, if_neg hs]
    exact ⟨trivial, trivial, trivial⟩

/-- C4 (counterexample): `unpack_repo` does not return an
`UnpackSummary{attempted, extracted, skipped}` — its Python return value is
`None` both when the archive opens successfully and when it fails to parse. -/
theorem c4_no_summary_counterexample :
    (unpack_repo "abc.zip" (ZipFile.good []) "." [] true 10 100 false none
      ⟨[], [], []⟩).retval = none ∧
    (unpack_repo "bad.zip" ZipFile.bad "." [] true 10 100 false none
      ⟨[], [], []⟩).retval = none :=
  ⟨rfl, rfl⟩

/-- C4 (amended): `unpack_repo` always returns `None`; the only count it
maintains is `extracted`, which is reported via the final per-archive log line,
and when the archive fails to parse it logs an error (and, in particular,
returns `None` rather than any summary of counts). -/
theorem c4_amended_returns_none (zp : String) (zf : ZipFile) (dstbase : String)
    (pats : List (Pat × Bool)) (extract : Bool) (maxfiles maxsize : Nat)
    (srcmap : Bool) (repo : Option RepoMap) (st : St) :
    (unpack_repo zp zf dstbase pats extract maxfiles maxsize srcmap repo st).retval = none ∧
    (zf = ZipFile.bad → srcmap = repo.isSome →
      (unpack_repo zp zf dstbase pats extract maxfiles maxsize srcmap repo st).st.logs
        = st.logs ++ [LogMsg.error ("error: " ++ zp ++ ": BadZipFile")]) := by
  constructor
  · by_cases hs : srcmap = repo.isSome
    · cases zf with
      | bad => simp [unpack_repo, hs]
      | good entries =>
        cases repo with
        | none => simp [unpack_repo, hs, finishUnpack]
        | some rmap =>
          cases hl : rmap.lookup (commitOf zp) <;> simp [unpack_repo, hs, hl, finishUnpack]
    · simp [unpack_repo, hs]
  · intro hbad hs
    subst hbad
    simp [unpack_repo, hs]

/-- Witness for `c4_amended_returns_none` at a concrete bad archive. -/
theorem c4_amended_returns_none_witness :
    (unpack_repo "bad.zip" ZipFile.bad "." [] true 10 100 false none
      ⟨[], [], []⟩).retval = none ∧
    (unpack_repo "bad.zip" ZipFile.bad "." [] true 10 100 false none
      ⟨[], [], []⟩).st.logs = [] ++ [LogMsg.error ("error: " ++ "bad.zip" ++ ": BadZipFile")] := by
  have h := c4_amended_returns_none "bad.zip" ZipFile.bad "." [] true 10 100 false none ⟨[], [], []⟩
  exact ⟨h.1, h.2 rfl rfl⟩

/-! ## Entries without a path separator (C10) -/

theorem pyPartition_no_slash (l : List Char) (h : '/' ∉ l) : pyPartition l = (l, []) := by
  induction l with
  | nil => rfl
  | cons c t ih =>
    have hc : ¬(c = '/') := fun e => h (e ▸ List.mem_cons_self c t)
    rw [pyPartition, if_neg hc, ih fun m => h (List.mem_cons_of_mem c m)]

/-- C10: for an accepted entry whose path contains no `/`, the whole path
becomes the directory bucket and the remainder is empty, so the file key is
`getkey ""` — the hex digest of the empty string followed by `_` — and the
file is written at `destinationRoot/<entire path>/<that key>`. -/
theorem c10_no_separator_entry (e : Entry) (zp dstbase : String)
    (pats : List (Pat × Bool)) (maxfiles maxsize : Nat) (st : St)
    (hdir : e.is_dir = false)
    (hhid : containsSub e.filename.data ['/', '.'] = false)
    (hpat : patDecision pats e.filename = true)
    (hsize : e.file_size ≤ maxsize)
    (hslash : '/' ∉ e.filename.data) :
    (unpack_repo zp (ZipFile.good [e]) dstbase pats true maxfiles maxsize false none st).st.fs
      = (pyJoin dstbase (pyJoin e.filename (getkey "")), e.content) :: st.fs ∧
    getkey "" = (⟨md5hex (strUtf8 "") ++ ['_']⟩ : String) := by
  refine ⟨?_, rfl⟩
  have h0 : (unpack_repo zp (ZipFile.good [e]) dstbase pats true maxfiles maxsize
        false none st).st.fs
      = (entryStep ⟨zp, dstbase, pats, true, maxfiles, maxsize, none, commitOf zp⟩ e
          ⟨none, 0, st, false⟩).st.fs := rfl
  rw [h0]
  unfold entryStep
  rw [if_neg (by simp [hdir]), if_neg (by simp [hhid]),
    if_neg (by simp [hpat]), if_neg (Nat.not_lt.mpr hsize)]
  rw [pyPartition_no_slash _ hslash]
  rfl

/-- Witness for `c10_no_separator_entry` at a concrete entry. -/
theorem c10_no_separator_entry_witness :
    (unpack_repo "abc.zip" (ZipFile.good [⟨"README", false, 2, [104, 105]⟩])
        "out" [(fun _ => true, true)] true 10 100 false none ⟨[], [], []⟩).st.fs
      = [(pyJoin "out" (pyJoin "README" (getkey "")), [104, 105])] := by
  have h := c10_no_separator_entry ⟨"README", false, 2, [104, 105]⟩ "abc.zip" "out"
    [(fun _ => true, true)] 10 100 ⟨[], [], []⟩ rfl (by decide) rfl (by decide) (by decide)
  exact h.1

/-! ## The `maxfiles` bound (C8) -/

theorem stepCtl_le (ctx : Ctx) (e : Entry) (k : Ctl)
    (h1 : k.extracted < ctx.maxfiles) :
    ((stepCtl ctx e k).broke = false → (stepCtl ctx e k).extracted < ctx.maxfiles) ∧
      (stepCtl ctx e k).extracted ≤ ctx.maxfiles := by
  unfold stepCtl
  split_ifs
  · exact ⟨fun _ => h1, Nat.le_of_lt h1⟩
  · exact ⟨fun _ => h1, Nat.le_of_lt h1⟩
  · exact ⟨fun _ => h1, Nat.le_of_lt h1⟩
  · exact ⟨fun _ => h1, Nat.le_of_lt h1⟩
  · constructor
    · intro hbf
      simp only [decide_eq_false_iff_not, Nat.not_le] at hbf
      exact hbf
    · exact h1
  · exact ⟨fun _ => h1, Nat.le_of_lt h1⟩

theorem loopCtl_le (ctx : Ctx) (es : List Entry) : ∀ k : Ctl,
    (k.broke = false → k.extracted < ctx.maxfiles) → k.extracted ≤ ctx.maxfiles →
    ((loopCtl ctx es k).broke = false → (loopCtl ctx es k).extracted < ctx.maxfiles) ∧
      (loopCtl ctx es k).extracted ≤ ctx.maxfiles := by
  induction es with
  | nil => exact fun k h1 h2 => ⟨h1, h2⟩
  | cons e rest ih =>
    intro k h1 h2
    by_cases hb : k.broke = true
    · simp only [loopCtl, hb, if_true]
      exact ⟨(fun hf => nomatch hf), h2⟩
    · have hb' : k.broke = false := by simpa using hb
      simp only [loopCtl, hb', Bool.false_eq_true, if_false]
      have hs := stepCtl_le ctx e k (h1 hb')
      exact ih _ hs.1 hs.2

theorem unpackLoop_extracted (ctx : Ctx) (es : List Entry) (acc : LoopAcc) :
    (unpackLoop ctx es acc).extracted = (loopCtl ctx es acc.ctl).extracted :=
  congrArg Ctl.extracted (unpackLoop_ctl ctx es acc)

theorem unpackLoop_broke_eq (ctx : Ctx) (es : List Entry) (acc : LoopAcc) :
    (unpackLoop ctx es acc).broke = (loopCtl ctx es acc.ctl).broke :=
  congrArg Ctl.broke (unpackLoop_ctl ctx es acc)

theorem loop_stop (ctx : Ctx) (es₁ es₂ : List Entry) (st : St)
    (hmf : 1 ≤ ctx.maxfiles) :
    (unpackLoop ctx es₁ ⟨none, 0, st, false⟩).extracted ≤ ctx.maxfiles ∧
    ((unpackLoop ctx es₁ ⟨none, 0, st, false⟩).extracted = ctx.maxfiles →
      unpackLoop ctx (es₁ ++ es₂) ⟨none, 0, st, false⟩
        = unpackLoop ctx es₁ ⟨none, 0, st, false⟩) := by
  have hk := loopCtl_le ctx es₁ ⟨none, 0, false⟩ (fun _ => hmf) (Nat.zero_le _)
  constructor
  · rw [unpackLoop_extracted]
    exact hk.2
  · intro hext
    rw [unpackLoop_extracted] at hext
    simp only [LoopAcc.ctl] at hext
    rw [unpackLoop_append]
    apply unpackLoop_broke
    rw [unpackLoop_broke_eq]
    simp only [LoopAcc.ctl]
    by_contra hbf
    have hb : (loopCtl ctx es₁ ⟨none, 0, false⟩).broke = false := by
      simpa using hbf
    have hlt := hk.1 hb
    rw [hext] at hlt
    exact Nat.lt_irrefl _ hlt

/-- C8 (amended): with extraction enabled and `maxfiles ≥ 1`, `unpack_repo`
extracts at most `maxfiles` entries from one archive, and once the extracted
count reaches `maxfiles` iteration stops: appending further entries to the
archive changes nothing — no later entry is filtered, written, or recorded in
the provenance store.  (The bound is checked only after each successful
extraction, so `maxfiles = 0` still extracts one entry; hence the `1 ≤
maxfiles` hypothesis.) -/
theorem c8_amended_maxfiles_bound (zp dstbase : String) (pats : List (Pat × Bool))
    (maxfiles maxsize : Nat) (srcmap : Bool) (repo : Option RepoMap) (st : St)
    (es₁ es₂ : List Entry) (hmf : 1 ≤ maxfiles) :
    (unpack_repo zp (ZipFile.good es₁) dstbase pats true maxfiles maxsize srcmap repo st).extracted
      ≤ maxfiles ∧
    ((unpack_repo zp (ZipFile.good es₁) dstbase pats true maxfiles maxsize srcmap repo
          st).extracted = maxfiles →
      unpack_repo zp (ZipFile.good (es₁ ++ es₂)) dstbase pats true maxfiles maxsize srcmap repo st
        = unpack_repo zp (ZipFile.good es₁) dstbase pats true maxfiles maxsize srcmap repo st) := by
  by_cases hs : srcmap = repo.isSome
  · cases repo with
    | none =>
      have hl := loop_stop ⟨zp, dstbase, pats, true, maxfiles, maxsize, none, commitOf zp⟩
        es₁ es₂ st hmf
      constructor
      · simp only [unpack_repo, if_pos hs, finishUnpack]
        exact hl.1
      · intro hext
        have hext' : (unpackLoop ⟨zp, dstbase, pats, true, maxfiles, maxsize, none, commitOf zp⟩
            es₁ ⟨none, 0, st, false⟩).extracted = maxfiles := by
          simpa only [unpack_repo, if_pos hs, finishUnpack] using hext
        simp only [unpack_repo, if_pos hs]
        rw [hl.2 hext']
    | some rmap =>
      cases hlk : rmap.lookup (commitOf zp) with
      | none =>
        constructor
        · simp only [unpack_repo, if_pos hs, hlk]
          exact Nat.zero_le _
        · intro _
          simp only [unpack_repo, if_pos hs, hlk]
      | some rb =>
        have hl := loop_stop ⟨zp, dstbase, pats, true, maxfiles, maxsize, some rb, commitOf zp⟩
          es₁ es₂ st hmf
        constructor
        · simp only [unpack_repo, if_pos hs, hlk, finishUnpack]
          exact hl.1
        · intro hext
          have hext' : (unpackLoop
              ⟨zp, dstbase, pats, true, maxfiles, maxsize, some rb, commitOf zp⟩
              es₁ ⟨none, 0, st, false⟩).extracted = maxfiles := by
            simpa only [unpack_repo, if_pos hs, hlk, finishUnpack] using hext
          simp only [unpack_repo, if_pos hs, hlk]
          rw [hl.2 hext']
  · constructor
    · simp only [unpack_repo, if_neg hs]
      exact Nat.zero_le _
    · intro _
      simp only [unpack_repo, if_neg hs]

set_option maxRecDepth 400000 in
/-- C8 (counterexample): with `maxfiles = 0` the code still extracts one entry
(the `maxfiles <= extracted` check runs only after a successful extraction), so
"extracts at most maxfiles entries" fails at `maxfiles = 0`. -/
theorem c8_maxfiles_zero_counterexample :
    (unpack_repo "a.zip" (ZipFile.good [⟨"p/a.txt", false, 3, [97, 98, 99]⟩]) "."
      [(fun _ => true, true)] true 0 100 false none ⟨[], [], []⟩).extracted = 1 := by
  decide

set_option maxRecDepth 400000 in
/-- Witness for `c8_amended_maxfiles_bound`: with `maxfiles = 1` and a
two-entry archive, the first accepted entry is extracted and the second is
never touched — the run equals the run on the one-entry archive. -/
theorem c8_amended_maxfiles_bound_witness :
    (unpack_repo "a.zip" (ZipFile.good [⟨"p/a.txt", false, 3, [97, 98, 99]⟩]) "."
      [(fun _ => true, true)] true 1 100 false none ⟨[], [], []⟩).extracted ≤ 1 ∧
    unpack_repo "a.zip"
        (ZipFile.good [⟨"p/a.txt", false, 3, [97, 98, 99]⟩, ⟨"p/b.txt", false, 3, [100, 101, 102]⟩])
        "." [(fun _ => true, true)] true 1 100 false none ⟨[], [], []⟩
      = unpack_repo "a.zip" (ZipFile.good [⟨"p/a.txt", false, 3, [97, 98, 99]⟩]) "."
        [(fun _ => true, true)] true 1 100 false none ⟨[], [], []⟩ := by
  have h := c8_amended_maxfiles_bound "a.zip" "." [(fun _ => true, true)] 1 100 false none
    ⟨[], [], []⟩ [⟨"p/a.txt", false, 3, [97, 98, 99]⟩] [⟨"p/b.txt", false, 3, [100, 101, 102]⟩]
    (by decide)
  exact ⟨h.1, h.2 (by decide)⟩

/-! ## Missing commit id aborts the batch (C1) -/

/-- C1 (counterexample): with a provenance store and repository index in use
and the first archive's commit id (`abc`) absent from the index, the batch does
not log an error and does not continue — it stops with an uncaught `KeyError`:
nothing is logged at all, no file is extracted from either archive (the second
archive, whose commit resolves and whose entry would be accepted, is never
processed), and no provenance row is committed. -/
theorem c1_keyerror_counterexample :
    runBatch
        [("abc.zip", ZipFile.good [⟨"p/a.txt", false, 3, [97]⟩]),
         ("def.zip", ZipFile.good [⟨"q/b.txt", false, 3, [98]⟩])]
        "." [(fun _ => true, true)] true 10 100 true
        (some [("def", ("o/r", "m"))]) ⟨[], [], []⟩
      = ⟨⟨[], [], []⟩, some (PyExc.keyError "abc"), []⟩ := by
  rfl

/-- C1 (amended): if a provenance store and repository index are in use and an
archive's commit id is absent from the repository index, `unpack_repo` raises
an uncaught `KeyError` before touching any entry: nothing is logged, no entry
is extracted, the batch run aborts without processing the remaining archives,
and no provenance rows are committed. -/
theorem c1_amended_missing_commit_aborts (zp : String) (es : List Entry)
    (rest : List (String × ZipFile)) (dstbase : String) (pats : List (Pat × Bool))
    (extract : Bool) (maxfiles maxsize : Nat) (rmap : RepoMap) (st : St)
    (hlk : rmap.lookup (commitOf zp) = none) :
    runBatch ((zp, ZipFile.good es) :: rest) dstbase pats extract maxfiles maxsize
        true (some rmap) st
      = ⟨st, some (PyExc.keyError (commitOf zp)), []⟩ := by
  simp only [runBatch, runBatchLoop, unpack_repo, hlk]
  rfl

/-- Witness for `c1_amended_missing_commit_aborts` at a concrete batch. -/
theorem c1_amended_missing_commit_aborts_witness :
    runBatch [("abc.zip", ZipFile.good [⟨"p/a.txt", false, 3, [97]⟩])] "." [] true 10 100
        true (some [("def", ("o/r", "m"))]) ⟨[], [], []⟩
      = ⟨⟨[], [], []⟩, some (PyExc.keyError "abc"), []⟩ :=
  c1_amended_missing_commit_aborts "abc.zip" [⟨"p/a.txt", false, 3, [97]⟩] [] "." [] true
    10 100 [("def", ("o/r", "m"))] ⟨[], [], []⟩ (by decide)

/-! ## Provenance rows without writes (C2) -/

theorem stepFS_no_extract (ctx : Ctx) (h : ctx.extract = false) (e : Entry) :
    stepFS ctx e = [] := by
  unfold stepFS
  rw [h]
  simp

theorem loopFS_no_extract (ctx : Ctx) (h : ctx.extract = false) :
    ∀ (es : List Entry) (k : Ctl), loopFS ctx es k = [] := by
  intro es
  induction es with
  | nil => intro k; rfl
  | cons e rest ih =>
    intro k
    by_cases hb : k.broke = true
    · simp [loopFS, hb]
    · have hb' : k.broke = false := by simpa using hb
      simp [loopFS, hb', ih, stepFS_no_extract ctx h]

theorem unpackFS_no_extract (zp : String) (zf : ZipFile) (dstbase : String)
    (pats : List (Pat × Bool)) (maxfiles maxsize : Nat) (srcmap : Bool)
    (repo : Option RepoMap) :
    unpackFS zp zf dstbase pats false maxfiles maxsize srcmap repo = [] := by
  by_cases hs : srcmap = repo.isSome
  · cases zf with
    | bad => simp [unpackFS, hs]
    | good entries =>
      cases repo with
      | none =>
        simp only [unpackFS, if_pos hs]
        exact loopFS_no_extract
          ⟨zp, dstbase, pats, false, maxfiles, maxsize, none, commitOf zp⟩ rfl entries _
      | some rmap =>
        cases hl : rmap.lookup (commitOf zp) with
        | none => simp [unpackFS, hs, hl]
        | some rb =>
          simp only [unpackFS, if_pos hs, hl]
          exact loopFS_no_extract
            ⟨zp, dstbase, pats, false, maxfiles, maxsize, some rb, commitOf zp⟩ rfl entries _
  · simp [unpackFS, hs]

/-- C2 (amended): provenance rows are inserted before the write is attempted
(line 62 precedes line 66) and are committed at the end of the batch regardless
of whether any file was written; in particular a dry run (extraction disabled)
writes no file at all, while rows for accepted entries are still recorded and
committed, so a committed `flatName` need not correspond to any file under the
destination root. -/
theorem c2_amended_rows_regardless_of_writes (zips : List (String × ZipFile))
    (dstbase : String) (pats : List (Pat × Bool)) (maxfiles maxsize : Nat)
    (srcmap : Bool) (repo : Option RepoMap) (st : St) :
    (runBatch zips dstbase pats false maxfiles maxsize srcmap repo st).st.fs = st.fs := by
  suffices h : ∀ s : St,
      (runBatchLoop dstbase pats false maxfiles maxsize srcmap repo zips s).1.fs = s.fs from
    h st
  induction zips with
  | nil => intro s; rfl
  | cons zzf rest ih =>
    rcases zzf with ⟨zp, zf⟩
    intro s
    simp only [runBatchLoop]
    have hfs : (unpack_repo zp zf dstbase pats false maxfiles maxsize srcmap repo s).st.fs
        = s.fs := by
      rw [unpack_repo_fs, unpackFS_no_extract]
      rfl
    cases hx : (unpack_repo zp zf dstbase pats false maxfiles maxsize srcmap repo s).exc with
    | some e =>
      simp only [hx]
      exact hfs
    | none =>
      simp only [hx]
      rw [ih]
      exact hfs

set_option maxRecDepth 400000 in
/-- C2 (counterexample): a dry run (`extract = False`, `-n`) with a provenance
store and a resolvable commit id inserts a provenance row for the accepted
entry and commits it at the end of the batch, yet writes no file: the
committed row's flat name corresponds to no file under the destination root
(the filesystem is untouched). -/
theorem c2_orphan_rows_counterexample :
    (runBatch [("abc.zip", ZipFile.good [⟨"p/a.txt", false, 3, [97, 98, 99]⟩])] "."
        [(fun _ => true, true)] false 10 100 true (some [("abc", ("o/r", "m"))])
        ⟨[], [], []⟩).st.fs = [] ∧
    (runBatch [("abc.zip", ZipFile.good [⟨"p/a.txt", false, 3, [97, 98, 99]⟩])] "."
        [(fun _ => true, true)] false 10 100 true (some [("abc", ("o/r", "m"))])
        ⟨[], [], []⟩).committedRows.map (fun row => (row.commit, row.srcpath))
      = [("abc", "a.txt")] := by
  exact ⟨by decide, by decide⟩

/-! ## Pattern-order semantics (C9) -/

theorem patDecision_first (src : String) : ∀ (pre post : List (Pat × Bool)) (p : Pat)
    (flag : Bool), (∀ q ∈ pre, q.1 src = false) → p src = true →
    patDecision (pre ++ (p, flag) :: post) src = flag := by
  intro pre
  induction pre with
  | nil =>
    intro post p flag _ hmatch
    simp [patDecision, hmatch]
  | cons q t ih =>
    intro post p flag hpre hmatch
    have hq : q.1 src = false := hpre q (List.mem_cons_self q t)
    rcases q with ⟨qp, qf⟩
    simp only [List.cons_append, patDecision]
    rw [if_neg (by simp_all)]
    exact ih post p flag (fun r hr => hpre r (List.mem_cons_of_mem _ hr)) hmatch

theorem patDecision_none (src : String) : ∀ pats : List (Pat × Bool),
    (∀ q ∈ pats, q.1 src = false) → patDecision pats src = false := by
  intro pats
  induction pats with
  | nil => intro _; rfl
  | cons q t ih =>
    intro hall
    have hq : q.1 src = false := hall q (List.mem_cons_self q t)
    rcases q with ⟨qp, qf⟩
    simp only [patDecision]
    rw [if_neg (by simp_all)]
    exact ih (fun r hr => hall r (List.mem_cons_of_mem _ hr))

/-- C9: when the configured pattern list is non-empty, patterns are evaluated
in configuration order and the first pattern whose search matches the entry
path decides the outcome via its flag — an inclusion pattern accepts (the entry
then still faces the subsequent size check, which in the code runs after the
pattern loop), an exclusion pattern rejects — and an entry matching no pattern
in the list is rejected. -/
theorem c9_first_match_decides (pats : List (Pat × Bool)) (src : String) :
    (∀ (pre post : List (Pat × Bool)) (p : Pat) (flag : Bool),
      pats = pre ++ (p, flag) :: post → (∀ q ∈ pre, q.1 src = false) → p src = true →
      patDecision pats src = flag) ∧
    ((∀ q ∈ pats, q.1 src = false) → patDecision pats src = false) := by
  refine ⟨?_, patDecision_none src pats⟩
  intro pre post p flag hp hpre hmatch
  rw [hp]
  exact patDecision_first src pre post p flag hpre hmatch

/-- Witness for `c9_first_match_decides`: an exclusion pattern for `/test/`
listed before an inclusion pattern for `.java` rejects a path under `test` and
accepts another `.java` path that only the second pattern matches. -/
theorem c9_first_match_decides_witness :
    patDecision
        [(fun s => containsSub s.data ['/', 't', 'e', 's', 't', '/'], false),
         (fun s => containsSub s.data ['.', 'j', 'a', 'v', 'a'], true)]
        "src/test/A.java" = false ∧
    patDecision
        [(fun s => containsSub s.data ['/', 't', 'e', 's', 't', '/'], false),
         (fun s => containsSub s.data ['.', 'j', 'a', 'v', 'a'], true)]
        "src/main/A.java" = true := by
  constructor
  · exact (c9_first_match_decides _ "src/test/A.java").1 []
      [(fun s => containsSub s.data ['.', 'j', 'a', 'v', 'a'], true)]
      (fun s => containsSub s.data ['/', 't', 'e', 's', 't', '/']) false rfl
      (fun q hq => absurd hq (List.not_mem_nil q)) (by decide)
  · exact (c9_first_match_decides _ "src/main/A.java").1
      [(fun s => containsSub s.data ['/', 't', 'e', 's', 't', '/'], false)] []
      (fun s => containsSub s.data ['.', 'j', 'a', 'v', 'a']) true rfl
      (by
        intro q hq
        rw [List.mem_singleton] at hq
        rw [hq]
        decide)
      (by decide)

/-! ## Repository-index line format (C5) -/

theorem dropWhile_eq_self_of_head (p : Char → Bool) (l : List Char)
    (h : ∀ x, l.head? = some x → p x = false) : l.dropWhile p = l := by
  cases l with
  | nil => rfl
  | cons c t =>
    rw [List.dropWhile_cons, h c rfl]
    simp

theorem pyStrip_eq_self (l : List Char)
    (h1 : ∀ x, l.head? = some x → wsp x = false)
    (h2 : ∀ x, l.getLast? = some x → wsp x = false) : pyStrip l = l := by
  unfold pyStrip
  rw [dropWhile_eq_self_of_head _ _ h1]
  rw [dropWhile_eq_self_of_head _ _ (fun x hx => h2 x (by rwa [List.head?_reverse] at hx))]
  exact List.reverse_reverse l

theorem splitChar_no_sep (sep : Char) (l : List Char) (h : ∀ x ∈ l, ¬(x = sep)) :
    splitChar sep l = [l] := by
  induction l with
  | nil => rfl
  | cons c t ih =>
    rw [splitChar, if_neg (h c (List.mem_cons_self c t)),
      ih (fun x hx => h x (List.mem_cons_of_mem c hx))]

theorem splitChar_append_sep (sep : Char) (a rest : List Char)
    (h : ∀ x ∈ a, ¬(x = sep)) :
    splitChar sep (a ++ sep :: rest) = a :: splitChar sep rest := by
  induction a with
  | nil => simp [splitChar]
  | cons c t ih =>
    rw [List.cons_append, splitChar, if_neg (h c (List.mem_cons_self c t)),
      ih (fun x hx => h x (List.mem_cons_of_mem c hx))]

/-- C5 (counterexample): a line in the spec's three-field format
`repositoryFullName branchName commitId` raises `ValueError` (the tuple
unpacking expects four values), while a four-field line `user repoName branch
commit` is parsed, mapping the commit id to `(user/repoName, branch)`. -/
theorem c5_three_fields_counterexample :
    parseRepoIndex ["org/proj main abc123"] = Except.error PyExc.valueError ∧
    parseRepoIndex ["euske tools main abc"]
      = Except.ok [("abc", ("euske/tools", "main"))] := by
  exact ⟨rfl, rfl⟩

/-- C5 (amended): the repository-index loader parses each line as exactly four
space-separated fields `user repoName branchName commitId`, builds the full
repository name as `user ++ "/" ++ repoName`, and maps the commit id to the
pair `(user/repoName, branchName)`; a line with any other field count raises
`ValueError`. -/
theorem c5_amended_four_fields (u rn br c : String)
    (hu : u.data ≠ []) (hcn : c.data ≠ [])
    (hu' : ∀ ch ∈ u.data, wsp ch = false) (hrn' : ∀ ch ∈ rn.data, wsp ch = false)
    (hbr' : ∀ ch ∈ br.data, wsp ch = false) (hc' : ∀ ch ∈ c.data, wsp ch = false) :
    parseRepoIndex [u ++ " " ++ rn ++ " " ++ br ++ " " ++ c]
      = Except.ok [(c, (u ++ "/" ++ rn, br))] := by
  have hnosp : ∀ (s : String), (∀ ch ∈ s.data, wsp ch = false) →
      ∀ x ∈ s.data, ¬(x = ' ') := by
    intro s hs x hx he
    have := hs x hx
    rw [he] at this
    exact absurd this (by decide)
  have hdata : (u ++ " " ++ rn ++ " " ++ br ++ " " ++ c).data
      = u.data ++ ' ' :: (rn.data ++ ' ' :: (br.data ++ ' ' :: c.data)) := by
    simp [String.data_append]
  have hstrip : pyStrip (u.data ++ ' ' :: (rn.data ++ ' ' :: (br.data ++ ' ' :: c.data)))
      = u.data ++ ' ' :: (rn.data ++ ' ' :: (br.data ++ ' ' :: c.data)) := by
    apply pyStrip_eq_self
    · intro x hx
      rw [List.head?_append_of_ne_nil u.data hu] at hx
      rcases List.exists_cons_of_ne_nil hu with ⟨d, t, hd⟩
      rw [hd] at hx
      simp only [List.head?_cons, Option.some.injEq] at hx
      exact hx ▸ hu' d (hd ▸ List.mem_cons_self d t)
    · intro x hx
      rw [List.getLast?_append_of_ne_nil u.data (List.cons_ne_nil _ _)] at hx
      rw [show (' ' :: (rn.data ++ ' ' :: (br.data ++ ' ' :: c.data)))
          = (' ' :: rn.data) ++ ' ' :: (br.data ++ ' ' :: c.data) from rfl] at hx
      rw [List.getLast?_append_of_ne_nil _ (List.cons_ne_nil _ _)] at hx
      rw [show (' ' :: (br.data ++ ' ' :: c.data))
          = (' ' :: br.data) ++ ' ' :: c.data from rfl] at hx
      rw [List.getLast?_append_of_ne_nil _ (List.cons_ne_nil _ _)] at hx
      rw [show (' ' :: c.data) = [' '] ++ c.data from rfl] at hx
      rw [List.getLast?_append_of_ne_nil _ hcn] at hx
      have hx' : x ∈ c.data.getLast? := hx
      rcases List.mem_getLast?_eq_getLast hx' with ⟨hne, hxe⟩
      exact hxe ▸ hc' _ (List.getLast_mem hne)
  have hsplit : splitChar ' ' (u.data ++ ' ' :: (rn.data ++ ' ' :: (br.data ++ ' ' :: c.data)))
      = [u.data, rn.data, br.data, c.data] := by
    rw [splitChar_append_sep ' ' u.data _ (hnosp u hu'),
      splitChar_append_sep ' ' rn.data _ (hnosp rn hrn'),
      splitChar_append_sep ' ' br.data _ (hnosp br hbr'),
      splitChar_no_sep ' ' c.data (hnosp c hc')]
  show parseRepoIndexAux [] [u ++ " " ++ rn ++ " " ++ br ++ " " ++ c]
      = Except.ok [(c, (u ++ "/" ++ rn, br))]
  rw [parseRepoIndexAux, hdata, hstrip, hsplit]
  rfl

/-- Witness for `c5_amended_four_fields` at a concrete four-field line. -/
theorem c5_amended_four_fields_witness :
    parseRepoIndex ["euske" ++ " " ++ "tools" ++ " " ++ "main" ++ " " ++ "abc"]
      = Except.ok [("abc", ("euske" ++ "/" ++ "tools", "main"))] :=
  c5_amended_four_fields "euske" "tools" "main" "abc" (by decide) (by decide)
    (by decide) (by decide) (by decide) (by decide)

end UnpackRepo
